import Mathlib

/-!
Shallow embedding of `src/labwatch/assistant.py` (labwatch's `LabAssistant`):
the claim protocol (`_dequeue_run`), the incremental optimizer update
(`update_optimizer`), search-space registration
(`_verify_and_init_search_space`), best-result lookup (`get_current_best`)
and result conversion (`convert_result`), together with theorems settling
the specification claims about them.

Python values are modelled as follows: job documents become the `Job`
structure, MongoDB timestamps become `ℕ` (with `0` playing the role of
`datetime.datetime.min`, the least representable timestamp), numeric
results become `ℚ`, raised exceptions become `Except` errors, and the
`runs` collection becomes a `List Job` mutated by explicit state passing.
-/

namespace Labwatch

/-- Job lifecycle status, exactly the status strings used by the source. -/
inductive Status where
  | QUEUED
  | INITIALIZING
  | RUNNING
  | COMPLETED
  | FAILED
deriving DecidableEq, Repr

/-- A raw experiment result as stored in a job document: a number, a string,
a structured dict, or an array — the dynamic shapes `convert_result`
distinguishes. -/
inductive RawResult where
  | num (x : ℚ)
  | str (s : String)
  | dict (entries : List (String × RawResult))
  | arr (xs : List RawResult)

/-- The three hard-error kinds of result conversion (§4.4 of the spec):
in the source they are the `ValueError` raised when a dict lacks the
`optimization_target` key, the `AssertionError` raised when that key's value
is not numeric, and the `ValueError` raised on any non-dict non-numeric
result. -/
inductive ConvErr where
  | MissingObjectiveError
  | NonNumericObjectiveError
  | UnsupportedResultShapeError
deriving DecidableEq, Repr

/-- Python dict key lookup (`result["optimization_target"]`) on the
association-list model of a dict: first matching key wins. -/
def lookup_field : List (String × RawResult) → String → Option RawResult
  | [], _ => none
  | (k, v) :: rest, key => if k = key then some v else lookup_field rest key

/-- Embedding of `convert_result` (assistant.py lines 438–452): a dict must
carry a numeric `optimization_target` entry; a number passes through; every
other shape is a hard error. The branch order follows the source: the dict
test comes first, then the non-number test. -/
def convert_result (result : RawResult) : Except ConvErr ℚ :=
  match result with
  | RawResult.dict entries =>
    match lookup_field entries "optimization_target" with
    | none => Except.error ConvErr.MissingObjectiveError
    | some (RawResult.num x) => Except.ok x
    | some _ => Except.error ConvErr.NonNumericObjectiveError
  | RawResult.num x => Except.ok x
  | _ => Except.error ConvErr.UnsupportedResultShapeError

/-- Experiment metadata attached to a job and to the local worker:
`ex.get_experiment_info()` / `run['experiment']` — name, source files and
dependency versions. -/
structure ExpInfo where
  name : String
  sources : List String
  dependencies : List (String × ℕ)
deriving DecidableEq, Repr

/-- One job (run) document of the `runs` collection, with the fields the
claims touch: `_id`, `status`, `heartbeat`, `result`, `config` (kept
opaque), the search-space tag `meta.options.UPDATE`, and the experiment
info. -/
structure Job where
  id : ℕ
  status : Status
  heartbeat : ℕ
  result : RawResult
  config : ℕ
  spaceName : String
  expInfo : ExpInfo

/-- Mongo `replace_one({'_id': jid, 'status': expected}, replacement=repl)`
(assistant.py lines 248–250) on the list model of the `runs` collection:
the first document matching both the id and the expected status is replaced
and `modified_count = 1` (`true`) is reported; otherwise the store is
unchanged and `modified_count = 0` (`false`). -/
def replace_one (store : List Job) (jid : ℕ) (expected : Status) (repl : Job) :
    List Job × Bool :=
  match store with
  | [] => ([], false)
  | j :: rest =>
    if j.id = jid ∧ j.status = expected then (repl :: rest, true)
    else
      let p := replace_one rest jid expected repl
      (j :: p.1, p.2)

/-- Status of the document with a given `_id`, if present. -/
def statusOf (store : List Job) (jid : ℕ) : Option Status :=
  (store.find? (fun j => j.id == jid)).map Job.status

/-- One atomic claim attempt of the claim protocol (assistant.py lines
244–256): the claimer holds a copy `r` of a run it read with status
`QUEUED` (`old_status`), sets the copy's status to `INITIALIZING`, and
issues the conditional `replace_one` keyed on the run's `_id` and its
originally-read status. -/
def claimStep (store : List Job) (r : Job) : List Job × Bool :=
  replace_one store r.id Status.QUEUED { r with status := Status.INITIALIZING }

/-- Number of successful claim attempts on the job with id `jid` along a
trace of claim attempts executed in order against the store. Because the
store applies each compare-and-swap atomically, an arbitrary interleaving of
concurrent claimers is exactly some sequential trace of their attempts. -/
def successCount (store : List Job) (jid : ℕ) : List Job → ℕ
  | [] => 0
  | r :: rest =>
    let p := claimStep store r
    (if r.id = jid ∧ p.2 = true then 1 else 0) + successCount p.1 jid rest

/-- Dependency-version policy of `check_dependencies` (`self.version_policy`,
set to `'newer'` in the source). -/
inductive VersionPolicy where
  | strict
  | newer
  | ignore
deriving DecidableEq, Repr

/-- The distinct compatibility failures raised during dequeue validation. -/
inductive ValidationError where
  | nameMismatch
  | sourceMismatch
  | dependencyMismatch
deriving DecidableEq, Repr

/-- Modelled from the spec: `check_names`, `check_sources` and
`check_dependencies` (from `labwatch.utils.version_checks`, whose source is
not part of this repository snapshot) validate the claimed job's declared
experiment name, source-code fingerprint and dependency versions against the
local worker's, raising a distinct error per mismatched field; the
dependency check is policy-gated (strict equality, newer-allowed, or
ignored). -/
def validateRun (localInfo : ExpInfo) (policy : VersionPolicy) (runInfo : ExpInfo) :
    Except ValidationError Unit :=
  if localInfo.name = runInfo.name then
    if localInfo.sources = runInfo.sources then
      match policy with
      | VersionPolicy.strict =>
        if localInfo.dependencies = runInfo.dependencies then Except.ok ()
        else Except.error ValidationError.dependencyMismatch
      | VersionPolicy.newer =>
        if runInfo.dependencies.all
            (fun d => localInfo.dependencies.any (fun l => l.1 = d.1 ∧ d.2 ≤ l.2)) then
          Except.ok ()
        else Except.error ValidationError.dependencyMismatch
      | VersionPolicy.ignore => Except.ok ()
    else Except.error ValidationError.sourceMismatch
  else Except.error ValidationError.nameMismatch

/-- The found-run branch of `_dequeue_run` (assistant.py lines 236–256), in
the source's order: the run read from the queue is first validated
(`check_names`, `check_sources`, `check_dependencies`), and only then is the
conditional status write to `INITIALIZING` attempted. A validation error
propagates before the write, leaving the store untouched; otherwise the
compare-and-swap runs and the claimed run is returned on success (`none`
models a lost race, which sends the loop back to polling). -/
def dequeue_found (localInfo : ExpInfo) (policy : VersionPolicy)
    (store : List Job) (run : Job) :
    List Job × Except ValidationError (Option Job) :=
  match validateRun localInfo policy run.expInfo with
  | Except.error e => (store, Except.error e)
  | Except.ok _ =>
    let r := { run with status := Status.INITIALIZING }
    let p := replace_one store run.id Status.QUEUED r
    (p.1, Except.ok (if p.2 then some r else none))

theorem replace_one_map_id (store : List Job) (jid : ℕ) (expected : Status)
    (repl : Job) (hrepl : repl.id = jid) :
    ((replace_one store jid expected repl).1).map Job.id = store.map Job.id := by
  induction store with
  | nil => rfl
  | cons j rest ih =>
    by_cases hc : j.id = jid ∧ j.status = expected
    · simp [replace_one, hc, hrepl, hc.1]
    · simp [replace_one, hc, ih]

theorem replace_one_fail_store (store : List Job) (jid : ℕ) (expected : Status)
    (repl : Job) (h : (replace_one store jid expected repl).2 = false) :
    (replace_one store jid expected repl).1 = store := by
  induction store with
  | nil => rfl
  | cons j rest ih =>
    by_cases hc : j.id = jid ∧ j.status = expected
    · simp [replace_one, hc] at h
    · simp only [replace_one, if_neg hc] at h ⊢
      rw [ih h]

theorem replace_one_success_exists (store : List Job) (jid : ℕ) (expected : Status)
    (repl : Job) (h : (replace_one store jid expected repl).2 = true) :
    ∃ j ∈ store, j.id = jid ∧ j.status = expected := by
  induction store with
  | nil => simp [replace_one] at h
  | cons j rest ih =>
    by_cases hc : j.id = jid ∧ j.status = expected
    · exact ⟨j, List.mem_cons_self j rest, hc⟩
    · simp only [replace_one, if_neg hc] at h
      obtain ⟨j', hj', hp⟩ := ih h
      exact ⟨j', List.mem_cons_of_mem j hj', hp⟩

theorem replace_one_fail_of_none (store : List Job) (jid : ℕ) (expected : Status)
    (repl : Job) (h : ∀ j ∈ store, j.id = jid → j.status ≠ expected) :
    (replace_one store jid expected repl).2 = false := by
  induction store with
  | nil => rfl
  | cons j rest ih =>
    have hc : ¬(j.id = jid ∧ j.status = expected) := by
      rintro ⟨h1, h2⟩
      exact h j (List.mem_cons_self j rest) h1 h2
    simp only [replace_one, if_neg hc]
    exact ih (fun j' hj' => h j' (List.mem_cons_of_mem j hj'))

theorem statusOf_of_mem_nodup (store : List Job) (j : Job)
    (hnd : (store.map Job.id).Nodup) (hmem : j ∈ store) :
    statusOf store j.id = some j.status := by
  induction store with
  | nil => cases hmem
  | cons a rest ih =>
    rw [List.map_cons, List.nodup_cons] at hnd
    rcases List.mem_cons.mp hmem with rfl | hmem
    · simp [statusOf, List.find?]
    · have hne : (a.id == j.id) = false := by
        rw [beq_eq_false_iff_ne]
        intro he
        apply hnd.1
        rw [he, ← (rfl : Job.id j = j.id)]
        exact List.mem_map_of_mem Job.id hmem
      have := ih hnd.2 hmem
      simpa [statusOf, List.find?, hne] using this

theorem claimStep_map_id (store : List Job) (r : Job) :
    ((claimStep store r).1).map Job.id = store.map Job.id :=
  replace_one_map_id store r.id Status.QUEUED _ rfl

theorem claimStep_fail_of_not_queued (store : List Job) (r : Job) (jid : ℕ)
    (hnd : (store.map Job.id).Nodup) (hid : r.id = jid)
    (hst : statusOf store jid ≠ some Status.QUEUED) :
    (claimStep store r).2 = false := by
  apply replace_one_fail_of_none
  intro j hj he hq
  apply hst
  have hs := statusOf_of_mem_nodup store j hnd hj
  rw [he, hid, hq] at hs
  exact hs

theorem replace_one_statusOf_self (store : List Job) (jid : ℕ) (expected : Status)
    (repl : Job) (hrepl : repl.id = jid)
    (hnd : (store.map Job.id).Nodup)
    (h : (replace_one store jid expected repl).2 = true) :
    statusOf (replace_one store jid expected repl).1 jid = some repl.status := by
  induction store with
  | nil => simp [replace_one] at h
  | cons j rest ih =>
    rw [List.map_cons, List.nodup_cons] at hnd
    by_cases hc : j.id = jid ∧ j.status = expected
    · simp [replace_one, hc, statusOf, List.find?, hrepl]
    · have h' : (replace_one rest jid expected repl).2 = true := by
        simpa only [replace_one, if_neg hc] using h
      have hne : (j.id == jid) = false := by
        rw [beq_eq_false_iff_ne]
        intro he
        obtain ⟨j', hj', hj'id, _⟩ := replace_one_success_exists rest jid expected repl h'
        apply hnd.1
        rw [he, ← hj'id]
        exact List.mem_map_of_mem Job.id hj'
      have hrec := ih hnd.2 h'
      simpa only [replace_one, if_neg hc, statusOf, List.find?, hne, Bool.false_eq_true,
        if_false] using hrec

theorem replace_one_statusOf_ne (store : List Job) (jid jid2 : ℕ) (expected : Status)
    (repl : Job) (hrepl : repl.id = jid) (hne : jid2 ≠ jid) :
    statusOf (replace_one store jid expected repl).1 jid2 = statusOf store jid2 := by
  induction store with
  | nil => rfl
  | cons j rest ih =>
    by_cases hc : j.id = jid ∧ j.status = expected
    · have h1 : (repl.id == jid2) = false := by
        rw [beq_eq_false_iff_ne, hrepl]
        exact fun he => hne he.symm
      have h2 : (j.id == jid2) = false := by
        rw [beq_eq_false_iff_ne, hc.1]
        exact fun he => hne he.symm
      have hj : (jid == jid2) = false := by
        rw [beq_eq_false_iff_ne]
        exact fun he => hne he.symm
      simp [replace_one, hc, statusOf, List.find?, h1, h2, hj]
    · by_cases h3 : j.id = jid2
      · simp only [replace_one, if_neg hc]
        simp [statusOf, List.find?, h3]
      · have h3' : (j.id == jid2) = false := by
          rw [beq_eq_false_iff_ne]
          exact h3
        have := ih
        simpa only [replace_one, if_neg hc, statusOf, List.find?, h3', Bool.false_eq_true,
          if_false] using this

theorem claimStep_preserves_not_queued (store : List Job) (r : Job) (jid : ℕ)
    (hnd : (store.map Job.id).Nodup)
    (hst : statusOf store jid ≠ some Status.QUEUED) :
    statusOf (claimStep store r).1 jid ≠ some Status.QUEUED := by
  by_cases hid : jid = r.id
  · cases hp : (claimStep store r).2 with
    | false =>
      rw [claimStep] at hp ⊢
      rw [replace_one_fail_store _ _ _ _ hp]
      exact hst
    | true =>
      rw [claimStep] at hp ⊢
      rw [hid]
      rw [replace_one_statusOf_self store r.id Status.QUEUED
        { r with status := Status.INITIALIZING } rfl hnd hp]
      simp
  · rw [claimStep,
      replace_one_statusOf_ne store r.id jid Status.QUEUED
        { r with status := Status.INITIALIZING } rfl hid]
    exact hst

theorem successCount_zero (attempts : List Job) (store : List Job) (jid : ℕ)
    (hnd : (store.map Job.id).Nodup)
    (hst : statusOf store jid ≠ some Status.QUEUED) :
    successCount store jid attempts = 0 := by
  induction attempts generalizing store with
  | nil => rfl
  | cons r rest ih =>
    have hfail : ¬(r.id = jid ∧ (claimStep store r).2 = true) := by
      rintro ⟨h1, h2⟩
      rw [claimStep_fail_of_not_queued store r jid hnd h1 hst] at h2
      cases h2
    have hnd' : (((claimStep store r).1).map Job.id).Nodup := by
      rw [claimStep_map_id]
      exact hnd
    have hst' := claimStep_preserves_not_queued store r jid hnd hst
    simp [successCount, if_neg hfail, ih _ hnd' hst']

/-- C1: along any sequential trace of atomic claim attempts (and every
interleaving of concurrent claimers is such a trace, because the store
applies each conditional `replace_one` atomically), at most one attempt on a
given job id succeeds: a successful compare-and-swap requires the document
to still be `QUEUED` and rewrites it to `INITIALIZING`, and no claim attempt
ever writes `QUEUED` back, so the first success permanently disables all
later attempts on the same job. -/
theorem at_most_one_claim (store : List Job) (attempts : List Job) (jid : ℕ)
    (hnd : (store.map Job.id).Nodup) :
    successCount store jid attempts ≤ 1 := by
  induction attempts generalizing store with
  | nil => simp [successCount]
  | cons r rest ih =>
    have hnd' : (((claimStep store r).1).map Job.id).Nodup := by
      rw [claimStep_map_id]
      exact hnd
    by_cases hc : r.id = jid ∧ (claimStep store r).2 = true
    · have hinit : statusOf (claimStep store r).1 jid = some Status.INITIALIZING := by
        rw [← hc.1]
        exact replace_one_statusOf_self store r.id Status.QUEUED
          { r with status := Status.INITIALIZING } rfl hnd hc.2
      have hzero := successCount_zero rest (claimStep store r).1 jid hnd'
        (by rw [hinit]; simp)
      simp [successCount, if_pos hc, hzero]
    · simp only [successCount, if_neg hc, zero_add]
      exact ih _ hnd'

/-- Witness for C1: two claim attempts on job 1 against a store holding
queued jobs 1 and 2 — the success count on job 1 stays at most one. -/
theorem at_most_one_claim_witness :
    (([⟨1, Status.QUEUED, 0, RawResult.num 0, 0, "s", ⟨"e", [], []⟩⟩,
       ⟨2, Status.QUEUED, 0, RawResult.num 0, 0, "s", ⟨"e", [], []⟩⟩] :
        List Job).map Job.id).Nodup ∧
    successCount
      [⟨1, Status.QUEUED, 0, RawResult.num 0, 0, "s", ⟨"e", [], []⟩⟩,
       ⟨2, Status.QUEUED, 0, RawResult.num 0, 0, "s", ⟨"e", [], []⟩⟩] 1
      [⟨1, Status.QUEUED, 0, RawResult.num 0, 0, "s", ⟨"e", [], []⟩⟩,
       ⟨1, Status.QUEUED, 0, RawResult.num 0, 0, "s", ⟨"e", [], []⟩⟩] ≤ 1 :=
  ⟨by decide,
   at_most_one_claim
     [⟨1, Status.QUEUED, 0, RawResult.num 0, 0, "s", ⟨"e", [], []⟩⟩,
      ⟨2, Status.QUEUED, 0, RawResult.num 0, 0, "s", ⟨"e", [], []⟩⟩]
     [⟨1, Status.QUEUED, 0, RawResult.num 0, 0, "s", ⟨"e", [], []⟩⟩,
      ⟨1, Status.QUEUED, 0, RawResult.num 0, 0, "s", ⟨"e", [], []⟩⟩] 1 (by decide)⟩

/-- C2 counterexample: a queued job whose experiment name (`"expA"`) differs
from the local worker's (`"expB"`). The found-run branch of `_dequeue_run`
raises the name-mismatch validation error, and at that moment the job's
status in the store is still `QUEUED` — not `INITIALIZING` — because the
source validates before the conditional status write, not after a successful
claim. -/
theorem dequeue_validation_counterexample :
    (dequeue_found ⟨"expB", [], []⟩ VersionPolicy.newer
      [⟨1, Status.QUEUED, 0, RawResult.num 1, 0, "s", ⟨"expA", [], []⟩⟩]
      ⟨1, Status.QUEUED, 0, RawResult.num 1, 0, "s", ⟨"expA", [], []⟩⟩).2 =
      Except.error ValidationError.nameMismatch ∧
    statusOf
      (dequeue_found ⟨"expB", [], []⟩ VersionPolicy.newer
        [⟨1, Status.QUEUED, 0, RawResult.num 1, 0, "s", ⟨"expA", [], []⟩⟩]
        ⟨1, Status.QUEUED, 0, RawResult.num 1, 0, "s", ⟨"expA", [], []⟩⟩).1 1 =
      some Status.QUEUED ∧
    some Status.QUEUED ≠ some Status.INITIALIZING :=
  ⟨rfl, rfl, by decide⟩

/-- C2 amended: for every claimed-candidate job whose experiment name,
source fingerprint, or dependency versions mismatch the local worker's,
validation is performed before the claim (before the conditional status
write), the claimer raises the distinct validation error, and the store is
left untouched, so the job still has its prior status `QUEUED` when the
error propagates. -/
theorem dequeue_validation_before_claim (localInfo : ExpInfo) (policy : VersionPolicy)
    (store : List Job) (run : Job) (e : ValidationError)
    (hv : validateRun localInfo policy run.expInfo = Except.error e) :
    (dequeue_found localInfo policy store run).1 = store ∧
    (dequeue_found localInfo policy store run).2 = Except.error e := by
  rw [dequeue_found, hv]
  exact ⟨rfl, rfl⟩

/-- Witness for C2's amended claim at the counterexample's concrete input. -/
theorem dequeue_validation_before_claim_witness :
    validateRun ⟨"expB", [], []⟩ VersionPolicy.newer
      (Job.expInfo ⟨1, Status.QUEUED, 0, RawResult.num 1, 0, "s", ⟨"expA", [], []⟩⟩) =
      Except.error ValidationError.nameMismatch ∧
    (dequeue_found ⟨"expB", [], []⟩ VersionPolicy.newer
      [⟨2, Status.QUEUED, 0, RawResult.num 1, 0, "s", ⟨"expA", [], []⟩⟩]
      ⟨1, Status.QUEUED, 0, RawResult.num 1, 0, "s", ⟨"expA", [], []⟩⟩).1 =
      [⟨2, Status.QUEUED, 0, RawResult.num 1, 0, "s", ⟨"expA", [], []⟩⟩] ∧
    (dequeue_found ⟨"expB", [], []⟩ VersionPolicy.newer
      [⟨2, Status.QUEUED, 0, RawResult.num 1, 0, "s", ⟨"expA", [], []⟩⟩]
      ⟨1, Status.QUEUED, 0, RawResult.num 1, 0, "s", ⟨"expA", [], []⟩⟩).2 =
      Except.error ValidationError.nameMismatch :=
  ⟨rfl,
   (dequeue_validation_before_claim ⟨"expB", [], []⟩ VersionPolicy.newer
     [⟨2, Status.QUEUED, 0, RawResult.num 1, 0, "s", ⟨"expA", [], []⟩⟩]
     ⟨1, Status.QUEUED, 0, RawResult.num 1, 0, "s", ⟨"expA", [], []⟩⟩
     ValidationError.nameMismatch rfl).1,
   (dequeue_validation_before_claim ⟨"expB", [], []⟩ VersionPolicy.newer
     [⟨2, Status.QUEUED, 0, RawResult.num 1, 0, "s", ⟨"expA", [], []⟩⟩]
     ⟨1, Status.QUEUED, 0, RawResult.num 1, 0, "s", ⟨"expA", [], []⟩⟩
     ValidationError.nameMismatch rfl).2⟩

/-- In-memory aggregation state private to one `LabAssistant` instance:
`self.known_jobs` (the set of job ids already delivered to the optimizer)
and `self.last_checked` (the watermark; `none` models the Python `None` it
is created with, and timestamp `0` models `datetime.datetime.min`, the
least representable timestamp). -/
structure OptState where
  knownJobs : List ℕ
  lastChecked : Option ℕ

/-- The store query of `update_optimizer` (assistant.py lines 287–293): all
jobs with heartbeat at or after the watermark, status `COMPLETED`, and
search-space tag (`meta.options.UPDATE`) equal to the current search-space
name. -/
def completedQuery (jobs : List Job) (wm : ℕ) (spaceName : String) : List Job :=
  jobs.filter fun j =>
    decide (wm ≤ j.heartbeat ∧ j.status = Status.COMPLETED ∧ j.spaceName = spaceName)

/-- The list comprehension of `update_optimizer` (assistant.py lines
297–298): for each queried job not already in `known_jobs`, in order, build
`(clean_config(job["config"]), convert_result(job["result"]), job)`. A
conversion failure raises out of the comprehension, so it aborts the whole
batch — exactly the source's evaluation order. -/
def buildInfo (cleanConfig : ℕ → ℕ) (known : List ℕ) :
    List Job → Except ConvErr (List (ℕ × ℚ × Job))
  | [] => Except.ok []
  | j :: rest =>
    if j.id ∈ known then buildInfo cleanConfig known rest
    else
      match convert_result j.result with
      | Except.error e => Except.error e
      | Except.ok x =>
        match buildInfo cleanConfig known rest with
        | Except.error e => Except.error e
        | Except.ok tl => Except.ok ((cleanConfig j.config, x, j) :: tl)

/-- Embedding of `LabAssistant.update_optimizer` (assistant.py lines
267–310). Without a database it warns and returns with nothing changed.
Otherwise: a `none` watermark is replaced by the minimum representable
timestamp; the completed-jobs query runs against the old watermark; the
watermark for the next call is set to `now` before the batch is processed;
the batch is built by `buildInfo` (a conversion error propagates at that
point, after the watermark write but before `known_jobs` is touched); on a
non-empty batch the delivered ids are unioned into `known_jobs` before the
optimizer's `update` is invoked. The returned `Except` carries the
delivered batch, `cleanConfig` stands for the external
`get_values_from_config`. -/
def update_optimizer (hasDb : Bool) (st : OptState) (jobs : List Job)
    (spaceName : String) (now : ℕ) (cleanConfig : ℕ → ℕ) :
    OptState × Except ConvErr (List (ℕ × ℚ × Job)) :=
  if hasDb = false then (st, Except.ok [])
  else
    let wm := st.lastChecked.getD 0
    let completed := completedQuery jobs wm spaceName
    match buildInfo cleanConfig st.knownJobs completed with
    | Except.error e => ({ st with lastChecked := some now }, Except.error e)
    | Except.ok info =>
      if info.isEmpty then ({ st with lastChecked := some now }, Except.ok [])
      else
        ({ knownJobs := st.knownJobs ++ info.map (fun t => t.2.2.id),
           lastChecked := some now }, Except.ok info)

theorem mem_completedQuery (jobs : List Job) (wm : ℕ) (spaceName : String) (j : Job) :
    j ∈ completedQuery jobs wm spaceName ↔
      j ∈ jobs ∧ wm ≤ j.heartbeat ∧ j.status = Status.COMPLETED ∧
        j.spaceName = spaceName := by
  simp [completedQuery, List.mem_filter]

theorem buildInfo_ok_mem (cleanConfig : ℕ → ℕ) (known : List ℕ) (l : List Job)
    (info : List (ℕ × ℚ × Job))
    (h : buildInfo cleanConfig known l = Except.ok info) :
    ∀ t ∈ info, t.2.2 ∈ l ∧ t.2.2.id ∉ known := by
  induction l generalizing info with
  | nil =>
    simp only [buildInfo, Except.ok.injEq] at h
    subst h
    intro t ht
    cases ht
  | cons j rest ih =>
    by_cases hk : j.id ∈ known
    · rw [buildInfo, if_pos hk] at h
      intro t ht
      obtain ⟨h1, h2⟩ := ih info h t ht
      exact ⟨List.mem_cons_of_mem j h1, h2⟩
    · rw [buildInfo, if_neg hk] at h
      cases hc : convert_result j.result with
      | error e => rw [hc] at h; cases h
      | ok x =>
        rw [hc] at h
        cases hb : buildInfo cleanConfig known rest with
        | error e => rw [hb] at h; cases h
        | ok tl =>
          rw [hb] at h
          injection h with h
          subst h
          intro t ht
          rcases List.mem_cons.mp ht with rfl | ht
          · exact ⟨List.mem_cons_self j rest, hk⟩
          · obtain ⟨h1, h2⟩ := ih tl hb t ht
            exact ⟨List.mem_cons_of_mem j h1, h2⟩

theorem buildInfo_ok_cover (cleanConfig : ℕ → ℕ) (known : List ℕ) (l : List Job)
    (info : List (ℕ × ℚ × Job))
    (h : buildInfo cleanConfig known l = Except.ok info) :
    ∀ j ∈ l, j.id ∈ known ∨ j ∈ info.map (fun t => t.2.2) := by
  induction l generalizing info with
  | nil => intro j hj; cases hj
  | cons j rest ih =>
    by_cases hk : j.id ∈ known
    · rw [buildInfo, if_pos hk] at h
      intro j' hj'
      rcases List.mem_cons.mp hj' with rfl | hj'
      · exact Or.inl hk
      · exact ih info h j' hj'
    · rw [buildInfo, if_neg hk] at h
      cases hc : convert_result j.result with
      | error e => rw [hc] at h; cases h
      | ok x =>
        rw [hc] at h
        cases hb : buildInfo cleanConfig known rest with
        | error e => rw [hb] at h; cases h
        | ok tl =>
          rw [hb] at h
          injection h with h
          subst h
          intro j' hj'
          rcases List.mem_cons.mp hj' with rfl | hj'
          · exact Or.inr (by simp)
          · rcases ih tl hb j' hj' with hk' | hm
            · exact Or.inl hk'
            · exact Or.inr (by simp [List.mem_map] at hm ⊢; exact Or.inr hm)

theorem buildInfo_all_known (cleanConfig : ℕ → ℕ) (known : List ℕ) (l : List Job)
    (h : ∀ j ∈ l, j.id ∈ known) :
    buildInfo cleanConfig known l = Except.ok [] := by
  induction l with
  | nil => rfl
  | cons j rest ih =>
    rw [buildInfo, if_pos (h j (List.mem_cons_self j rest))]
    exact ih fun j' hj' => h j' (List.mem_cons_of_mem j hj')

/-- C3 evaluated at the failing input: a batch of two completed jobs in
which the first job's result (the string "bad") fails conversion. The
conversion error propagates out of `update_optimizer`, the second job —
whose result 7 is perfectly convertible — is not delivered, and `known_jobs`
is left untouched: the source's list comprehension aborts the whole batch,
contrary to the claim that only the failing job is dropped and the rest of
the batch is still delivered. -/
theorem update_optimizer_batch_abort :
    update_optimizer true ⟨[], none⟩
      [⟨1, Status.COMPLETED, 3, RawResult.str "bad", 0, "sp", ⟨"e", [], []⟩⟩,
       ⟨2, Status.COMPLETED, 3, RawResult.num 7, 0, "sp", ⟨"e", [], []⟩⟩]
      "sp" 10 (fun c => c) =
      (⟨[], some 10⟩, Except.error ConvErr.UnsupportedResultShapeError) := rfl

/-- C4: every job delivered to the optimizer by `update_optimizer` is in
`known_jobs` no later than the delivery (its id is in the post-state's
`known_jobs` and was not in the pre-state's, so it is never delivered
twice), and a second `update` call with no new completions in between (the
store is the same list of jobs, and time has not run backwards:
the old watermark is at most the first call's `now`) consumes zero new
results. -/
theorem update_optimizer_no_redelivery (st : OptState) (jobs : List Job)
    (spaceName : String) (now1 now2 : ℕ) (cleanConfig : ℕ → ℕ)
    (st1 st2 : OptState) (info1 info2 : List (ℕ × ℚ × Job))
    (hwm : st.lastChecked.getD 0 ≤ now1)
    (h1 : update_optimizer true st jobs spaceName now1 cleanConfig =
      (st1, Except.ok info1))
    (h2 : update_optimizer true st1 jobs spaceName now2 cleanConfig =
      (st2, Except.ok info2)) :
    (∀ t ∈ info1, t.2.2.id ∈ st1.knownJobs ∧ t.2.2.id ∉ st.knownJobs) ∧
      info2 = [] := by
  have hdb : ¬(true = false) := by decide
  simp only [update_optimizer, if_neg hdb] at h1 h2
  cases hb1 : buildInfo cleanConfig st.knownJobs
      (completedQuery jobs (st.lastChecked.getD 0) spaceName) with
  | error e => rw [hb1] at h1; simp at h1
  | ok info =>
    simp only [hb1] at h1
    have hmem := buildInfo_ok_mem cleanConfig st.knownJobs _ info hb1
    have hcover := buildInfo_ok_cover cleanConfig st.knownJobs _ info hb1
    -- facts independent of the emptiness split
    have hstate : st1.knownJobs = st.knownJobs ∨
        (st1.knownJobs = st.knownJobs ++ info.map (fun t => t.2.2.id) ∧
          info1 = info) := by
      by_cases he : info.isEmpty
      · rw [if_pos he] at h1
        injection h1 with ha hb
        exact Or.inl (by rw [← ha])
      · rw [if_neg he] at h1
        injection h1 with ha hb
        injection hb with hb
        exact Or.inr ⟨by rw [← ha], hb.symm⟩
    have hinfo1 : info1 = info ∨ info1 = [] := by
      by_cases he : info.isEmpty
      · rw [if_pos he] at h1
        injection h1 with _ hb
        injection hb with hb
        exact Or.inr hb.symm
      · rw [if_neg he] at h1
        injection h1 with _ hb
        injection hb with hb
        exact Or.inl hb.symm
    have hwm1 : st1.lastChecked = some now1 := by
      by_cases he : info.isEmpty
      · rw [if_pos he] at h1
        injection h1 with ha _
        rw [← ha]
      · rw [if_neg he] at h1
        injection h1 with ha _
        rw [← ha]
    -- every completed matching job is known after the first call
    have hknown1 : ∀ j ∈ completedQuery jobs (st.lastChecked.getD 0) spaceName,
        j.id ∈ st1.knownJobs := by
      intro j hj
      rcases hstate with hs | ⟨hs, _⟩
      · rcases hcover j hj with hk | hm
        · rw [hs]; exact hk
        · -- j delivered, so info nonempty: the state must be the appended one
          -- but hstate chose the unchanged branch: info.isEmpty held, so info = []
          -- and hm is impossible unless info nonempty; handle via cases on info
          cases info with
          | nil => cases hm
          | cons t tl =>
            -- info nonempty: re-examine h1, the if must have taken the else branch
            rw [if_neg (by simp)] at h1
            injection h1 with ha _
            rw [← ha]
            refine List.mem_append.mpr (Or.inr ?_)
            simp only [List.mem_map] at hm ⊢
            obtain ⟨u, hu, hju⟩ := hm
            exact ⟨u, hu, by rw [hju]⟩
      · rcases hcover j hj with hk | hm
        · rw [hs]; exact List.mem_append.mpr (Or.inl hk)
        · rw [hs]
          refine List.mem_append.mpr (Or.inr ?_)
          simp only [List.mem_map] at hm ⊢
          obtain ⟨u, hu, hju⟩ := hm
          exact ⟨u, hu, by rw [hju]⟩
    constructor
    · intro t ht
      rcases hinfo1 with rfl | rfl
      · refine ⟨?_, (hmem t ht).2⟩
        have hj := (hmem t ht).1
        -- t.2.2 is in the first query, hence known after the call
        exact hknown1 _ hj
      · cases ht
    · -- the second call's query is contained in the first call's
      have hsub : ∀ j ∈ completedQuery jobs (st1.lastChecked.getD 0) spaceName,
          j ∈ completedQuery jobs (st.lastChecked.getD 0) spaceName := by
        intro j hj
        rw [mem_completedQuery] at hj ⊢
        refine ⟨hj.1, ?_, hj.2.2⟩
        refine le_trans hwm ?_
        refine le_trans ?_ hj.2.1
        rw [hwm1]
        rfl
      have hb2 : buildInfo cleanConfig st1.knownJobs
          (completedQuery jobs (st1.lastChecked.getD 0) spaceName) =
          Except.ok [] :=
        buildInfo_all_known _ _ _ fun j hj => hknown1 j (hsub j hj)
      simp only [hb2] at h2
      rw [if_pos (by simp : ([] : List (ℕ × ℚ × Job)).isEmpty = true)] at h2
      have hsnd := congrArg Prod.snd h2
      injection hsnd with hh
      exact hh.symm

/-- Witness for C4: a store with one completed job (heartbeat 3), first
update at time 5, second at time 9 — the job is delivered once, recorded in
`known_jobs`, and the second call consumes nothing. -/
theorem update_optimizer_no_redelivery_witness :
    ((⟨[], none⟩ : OptState).lastChecked.getD 0 ≤ 5) ∧
    ((∀ t ∈ ([(0, (7 : ℚ),
        ⟨1, Status.COMPLETED, 3, RawResult.num 7, 0, "sp", ⟨"e", [], []⟩⟩)] :
          List (ℕ × ℚ × Job)),
      t.2.2.id ∈ (OptState.mk [1] (some 5)).knownJobs ∧
        t.2.2.id ∉ (OptState.mk [] none).knownJobs) ∧
      ([] : List (ℕ × ℚ × Job)) = []) :=
  ⟨by decide,
   update_optimizer_no_redelivery ⟨[], none⟩
     [⟨1, Status.COMPLETED, 3, RawResult.num 7, 0, "sp", ⟨"e", [], []⟩⟩]
     "sp" 5 9 (fun c => c) ⟨[1], some 5⟩ ⟨[1], some 9⟩
     [(0, (7 : ℚ), ⟨1, Status.COMPLETED, 3, RawResult.num 7, 0, "sp", ⟨"e", [], []⟩⟩)]
     [] (by decide) rfl rfl⟩

/-- C8: on every aggregation call — whatever the instance's current state —
the watermark handed to the next call is recorded as `now`: the post-state's
`last_checked` is `some now` in every outcome, including when a conversion
error aborts the batch before `known_jobs` is touched, because the source
assigns it right after the query and before the batch is processed, so a job
completing during processing is not lost by the next query. And on a call
with no recorded watermark (`last_checked is None`, the first call of the
instance) the query watermark defaults to the minimum representable
timestamp, so every completed job tagged with the search space is considered
regardless of heartbeat — the first call considers all history. -/
theorem update_optimizer_watermark (st : OptState) (jobs : List Job)
    (spaceName : String) (now : ℕ) (cleanConfig : ℕ → ℕ)
    (h : st.lastChecked = none) :
    (∀ st' : OptState,
      (update_optimizer true st' jobs spaceName now cleanConfig).1.lastChecked =
        some now) ∧
    (∀ j ∈ jobs, j.status = Status.COMPLETED → j.spaceName = spaceName →
      j ∈ completedQuery jobs (st.lastChecked.getD 0) spaceName) := by
  have hdb : ¬(true = false) := by decide
  constructor
  · intro st'
    simp only [update_optimizer, if_neg hdb]
    cases hb : buildInfo cleanConfig st'.knownJobs
        (completedQuery jobs (st'.lastChecked.getD 0) spaceName) with
    | error e => simp
    | ok info =>
      by_cases he : info.isEmpty
      · simp [if_pos he]
      · simp [if_neg he]
  · intro j hj hc hs
    rw [mem_completedQuery]
    exact ⟨hj, by rw [h]; exact Nat.zero_le _, hc, hs⟩

/-- Witness for C8: first call (`last_checked = none`) over a store holding
one completed job with heartbeat 0 — the oldest possible — at time 7. -/
theorem update_optimizer_watermark_witness :
    (OptState.mk [] none).lastChecked = none ∧
    ((∀ st' : OptState,
        (update_optimizer true st'
          [⟨1, Status.COMPLETED, 0, RawResult.num 2, 0, "sp", ⟨"e", [], []⟩⟩]
          "sp" 7 (fun c => c)).1.lastChecked = some 7) ∧
      (∀ j ∈ ([⟨1, Status.COMPLETED, 0, RawResult.num 2, 0, "sp", ⟨"e", [], []⟩⟩] :
          List Job), j.status = Status.COMPLETED → j.spaceName = "sp" →
        j ∈ completedQuery
          [⟨1, Status.COMPLETED, 0, RawResult.num 2, 0, "sp", ⟨"e", [], []⟩⟩]
          ((OptState.mk [] none).lastChecked.getD 0) "sp")) :=
  ⟨rfl,
   update_optimizer_watermark ⟨[], none⟩
     [⟨1, Status.COMPLETED, 0, RawResult.num 2, 0, "sp", ⟨"e", [], []⟩⟩]
     "sp" 7 (fun c => c) rfl⟩

/-- The empty-queue polling loop of `_dequeue_run` (assistant.py lines
228–235), entered with a positive remaining budget: each iteration polls
(finding nothing), sleeps `sleepTime`, and then resets the remaining budget
to `self.block_time - elapsed` — the hard-coded `block_time` field, not the
`remaining_time` argument — looping while that stays positive. Returns the
total time slept. -/
def pollEmptyLoop (blockTime sleepTime : ℕ) (hs : 0 < sleepTime) (elapsed : ℕ) : ℕ :=
  if _h : elapsed + sleepTime < blockTime then
    pollEmptyLoop blockTime sleepTime hs (elapsed + sleepTime)
  else elapsed + sleepTime
termination_by blockTime - elapsed
decreasing_by omega

/-- Behaviour of `_dequeue_run(remaining_time, sleep_time)` when every poll
finds the queue empty: if the initial budget `maxWait` is positive the loop runs (and
from the first iteration on its budget is governed by `blockTime`), and the
run returned is `none` — the timeout signal, not an error. -/
def dequeue_run_empty (maxWait blockTime sleepTime : ℕ) (hs : 0 < sleepTime) :
    Option Job × ℕ :=
  if 0 < maxWait then (none, pollEmptyLoop blockTime sleepTime hs 0)
  else (none, 0)

theorem pollEmptyLoop_ge (blockTime sleepTime : ℕ) (hs : 0 < sleepTime)
    (elapsed : ℕ) : blockTime ≤ pollEmptyLoop blockTime sleepTime hs elapsed := by
  have H : ∀ gap elapsed, blockTime - elapsed ≤ gap →
      blockTime ≤ pollEmptyLoop blockTime sleepTime hs elapsed := by
    intro gap
    induction gap with
    | zero =>
      intro elapsed hg
      rw [pollEmptyLoop]
      have hno : ¬(elapsed + sleepTime < blockTime) := by omega
      rw [dif_neg hno]
      omega
    | succ n ih =>
      intro elapsed hg
      rw [pollEmptyLoop]
      by_cases h : elapsed + sleepTime < blockTime
      · rw [dif_pos h]
        exact ih (elapsed + sleepTime) (by omega)
      · rw [dif_neg h]
        omega
  exact H (blockTime - elapsed) elapsed le_rfl

/-- C5 at the failing input: `run_from_queue(wait_time_in_s=5, sleep_time=1)`
against an empty queue, with the source's `self.block_time = 1000`. The
operation does return the timeout signal `none` rather than an error, but
the loop sleeps for the full `block_time` (at least 1000 seconds), far past
the 5-second `max_wait` budget: the loop body overwrites the remaining
budget with `block_time - elapsed` instead of `max_wait - elapsed`, so
termination within `max_wait` fails. -/
theorem dequeue_run_budget_overrun :
    (dequeue_run_empty 5 1000 1 (by decide)).1 = none ∧
    1000 ≤ (dequeue_run_empty 5 1000 1 (by decide)).2 ∧
    ¬((dequeue_run_empty 5 1000 1 (by decide)).2 ≤ 5) := by
  have heq : (dequeue_run_empty 5 1000 1 (by decide)).2 =
      pollEmptyLoop 1000 1 (by decide) 0 := rfl
  have hge := pollEmptyLoop_ge 1000 1 (by decide) 0
  refine ⟨rfl, ?_, ?_⟩
  · rw [heq]
    exact hge
  · rw [heq]
    omega

/-- One persisted search space: its store-assigned `_id` and the canonical
serialized form of its definition. Modelled from the spec: two `SearchSpace`
values are identical iff their canonical serialized forms are equal
(structural equality); the `SearchSpace` class itself, with its `__eq__` and
`to_json`, is outside this repository snapshot. -/
structure SpaceEntry where
  id : ℕ
  canon : String
deriving DecidableEq, Repr

/-- The membership scan of `_verify_and_init_search_space` (assistant.py
lines 153–158): iterate over every stored search space and remember the last
one structurally equal to the candidate (the loop does not break, so a later
match overwrites an earlier one). -/
def findStructEq : List SpaceEntry → String → Option SpaceEntry
  | [], _ => none
  | sp :: rest, canon =>
    match findStructEq rest canon with
    | some r => some r
    | none => if sp.canon = canon then some sp else none

/-- Embedding of `LabAssistant._verify_and_init_search_space` (assistant.py
lines 148–163): look the definition up by structural equality; if absent,
insert its canonical form (the store appends it and assigns the fresh id)
and read the inserted document back by id. Returns the new store and the
resolved search space. -/
def verify_and_init_search_space (store : List SpaceEntry) (freshId : ℕ)
    (canon : String) : List SpaceEntry × SpaceEntry :=
  match findStructEq store canon with
  | some sp => (store, sp)
  | none => (store ++ [⟨freshId, canon⟩], ⟨freshId, canon⟩)

theorem findStructEq_mem (store : List SpaceEntry) (canon : String) (sp : SpaceEntry)
    (h : findStructEq store canon = some sp) : sp ∈ store ∧ sp.canon = canon := by
  induction store with
  | nil => cases h
  | cons a rest ih =>
    rw [findStructEq] at h
    cases hr : findStructEq rest canon with
    | some r =>
      rw [hr] at h
      injection h with h
      subst h
      obtain ⟨h1, h2⟩ := ih hr
      exact ⟨List.mem_cons_of_mem a h1, h2⟩
    | none =>
      rw [hr] at h
      by_cases hc : a.canon = canon
      · rw [if_pos hc] at h
        injection h with h
        subst h
        exact ⟨List.mem_cons_self a rest, hc⟩
      · rw [if_neg hc] at h
        cases h

theorem findStructEq_append_single (store : List SpaceEntry) (e : SpaceEntry)
    (canon : String) :
    findStructEq (store ++ [e]) canon =
      if e.canon = canon then some e else findStructEq store canon := by
  induction store with
  | nil =>
    by_cases hc : e.canon = canon
    · simp [findStructEq, hc]
    · simp [findStructEq, hc]
  | cons a rest ih =>
    rw [List.cons_append, findStructEq, ih]
    by_cases hc : e.canon = canon
    · rw [if_pos hc, if_pos hc]
    · rw [if_neg hc, if_neg hc, findStructEq]

/-- C7: resolving the same structural definition twice returns the same
search-space identity both times and the second resolution does not create a
second store entry; the returned entry always is a stored entry whose
canonical form equals the resolved definition's (if a structurally identical
space already exists it is returned unchanged, otherwise the canonical form
is inserted once and the freshly assigned identity is returned). -/
theorem resolve_search_space_idempotent (store : List SpaceEntry)
    (freshId freshId2 : ℕ) (canon : String) :
    (verify_and_init_search_space
        (verify_and_init_search_space store freshId canon).1 freshId2 canon).2 =
      (verify_and_init_search_space store freshId canon).2 ∧
    (verify_and_init_search_space
        (verify_and_init_search_space store freshId canon).1 freshId2 canon).1 =
      (verify_and_init_search_space store freshId canon).1 ∧
    (verify_and_init_search_space store freshId canon).2.canon = canon ∧
    (verify_and_init_search_space store freshId canon).2 ∈
      (verify_and_init_search_space store freshId canon).1 := by
  cases h : findStructEq store canon with
  | some sp =>
    obtain ⟨hmem, hcanon⟩ := findStructEq_mem store canon sp h
    have e1 : verify_and_init_search_space store freshId canon = (store, sp) := by
      simp only [verify_and_init_search_space, h]
    have e2 : verify_and_init_search_space store freshId2 canon = (store, sp) := by
      simp only [verify_and_init_search_space, h]
    rw [e1]
    dsimp only
    rw [e2]
    exact ⟨rfl, rfl, hcanon, hmem⟩
  | none =>
    have h2 : findStructEq (store ++ [⟨freshId, canon⟩]) canon =
        some ⟨freshId, canon⟩ := by
      rw [findStructEq_append_single, if_pos rfl]
    have e1 : verify_and_init_search_space store freshId canon =
        (store ++ [⟨freshId, canon⟩], ⟨freshId, canon⟩) := by
      simp only [verify_and_init_search_space, h]
    have e2 : verify_and_init_search_space (store ++ [⟨freshId, canon⟩]) freshId2
        canon = (store ++ [⟨freshId, canon⟩], ⟨freshId, canon⟩) := by
      simp only [verify_and_init_search_space, h2]
    rw [e1]
    dsimp only
    rw [e2]
    exact ⟨rfl, rfl, rfl, List.mem_append.mpr (Or.inr (List.mem_cons_self _ _))⟩

/-- BSON type rank used by MongoDB when sorting a field of mixed types:
numbers sort before strings, strings before objects, objects before
arrays. -/
def resultRank : RawResult → ℕ
  | RawResult.num _ => 0
  | RawResult.str _ => 1
  | RawResult.dict _ => 2
  | RawResult.arr _ => 3

/-- Numeric value of a result for sorting purposes (ties of equal rank among
non-numeric results are left unordered beyond the rank). -/
def resultNum : RawResult → ℚ
  | RawResult.num x => x
  | _ => 0

/-- Sort key of the `sort=[("result", 1)]` query: type rank first, then the
numeric value — ascending, i.e. minimization. -/
def resultKey (r : RawResult) : Lex (ℕ × ℚ) := toLex (resultRank r, resultNum r)

/-- The query `find_one({'status': 'COMPLETED'}, sort=[("result", 1)])`
(assistant.py lines 328–329): the first completed job in ascending result
order, i.e. a completed job minimizing the result sort key. -/
def find_one_completed_sorted (jobs : List Job) : Option Job :=
  (jobs.filter fun j => decide (j.status = Status.COMPLETED)).argmin
    (fun j => resultKey j.result)

/-- Embedding of `LabAssistant.get_current_best` with
`return_job_info=False` (assistant.py lines 323–339): without a database it
logs a warning and returns no value (`none`); otherwise it returns the pair
of the best job's cleaned config and raw result, or `(None, None)` when no
completed job exists. -/
def get_current_best (hasDb : Bool) (cleanConfig : ℕ → ℕ) (jobs : List Job) :
    Option (Option ℕ × Option RawResult) :=
  if hasDb = false then none
  else
    match find_one_completed_sorted jobs with
    | none => some (none, none)
    | some j => some (some (cleanConfig j.config), some j.result)

/-- Embedding of `LabAssistant.get_current_best` with
`return_job_info=True`: as above but also returning the best job document
itself, `(None, None, None)` when no completed job exists. -/
def get_current_best_with_info (hasDb : Bool) (cleanConfig : ℕ → ℕ)
    (jobs : List Job) : Option (Option ℕ × Option RawResult × Option Job) :=
  if hasDb = false then none
  else
    match find_one_completed_sorted jobs with
    | none => some (none, none, none)
    | some j => some (some (cleanConfig j.config), some j.result, some j)

/-- C9: whenever the store holds at least one COMPLETED job,
`get_current_best` (with a database) returns the cleaned configuration and
the result of a COMPLETED job whose result sort key is minimal among all
COMPLETED jobs — selection by sorting the result ascending, i.e.
minimization. -/
theorem get_current_best_min (cleanConfig : ℕ → ℕ) (jobs : List Job) (j0 : Job)
    (h0 : j0 ∈ jobs) (hc0 : j0.status = Status.COMPLETED) :
    ∃ j ∈ jobs, j.status = Status.COMPLETED ∧
      get_current_best true cleanConfig jobs =
        some (some (cleanConfig j.config), some j.result) ∧
      ∀ j' ∈ jobs, j'.status = Status.COMPLETED →
        resultKey j.result ≤ resultKey j'.result := by
  have hdb : ¬(true = false) := by decide
  have hmemf : j0 ∈ jobs.filter (fun j => decide (j.status = Status.COMPLETED)) :=
    List.mem_filter.mpr ⟨h0, by simp [hc0]⟩
  cases hm : find_one_completed_sorted jobs with
  | none =>
    rw [find_one_completed_sorted, List.argmin_eq_none] at hm
    rw [hm] at hmemf
    cases hmemf
  | some j =>
    have hj := List.argmin_mem hm
    have hjf := List.mem_filter.mp hj
    refine ⟨j, hjf.1, by simpa using hjf.2, ?_, ?_⟩
    · simp only [get_current_best, if_neg hdb, hm]
    · intro j' hj' hc'
      exact List.le_of_mem_argmin (f := fun jb => resultKey jb.result)
        (List.mem_filter.mpr ⟨hj', by simp [hc']⟩) hm

/-- Witness for C9: a store with two completed jobs with results 5 and 2 —
the best is the one with result 2. -/
theorem get_current_best_min_witness :
    (⟨1, Status.COMPLETED, 0, RawResult.num 5, 3, "sp", ⟨"e", [], []⟩⟩ : Job) ∈
      ([⟨1, Status.COMPLETED, 0, RawResult.num 5, 3, "sp", ⟨"e", [], []⟩⟩,
        ⟨2, Status.COMPLETED, 0, RawResult.num 2, 4, "sp", ⟨"e", [], []⟩⟩] :
        List Job) ∧
    (∃ j ∈ ([⟨1, Status.COMPLETED, 0, RawResult.num 5, 3, "sp", ⟨"e", [], []⟩⟩,
        ⟨2, Status.COMPLETED, 0, RawResult.num 2, 4, "sp", ⟨"e", [], []⟩⟩] :
        List Job), j.status = Status.COMPLETED ∧
      get_current_best true (fun c => c)
          [⟨1, Status.COMPLETED, 0, RawResult.num 5, 3, "sp", ⟨"e", [], []⟩⟩,
           ⟨2, Status.COMPLETED, 0, RawResult.num 2, 4, "sp", ⟨"e", [], []⟩⟩] =
        some (some ((fun c => c) j.config), some j.result) ∧
      ∀ j' ∈ ([⟨1, Status.COMPLETED, 0, RawResult.num 5, 3, "sp", ⟨"e", [], []⟩⟩,
          ⟨2, Status.COMPLETED, 0, RawResult.num 2, 4, "sp", ⟨"e", [], []⟩⟩] :
          List Job), j'.status = Status.COMPLETED →
        resultKey j.result ≤ resultKey j'.result) :=
  ⟨List.mem_cons_self _ _,
   get_current_best_min (fun c => c)
     [⟨1, Status.COMPLETED, 0, RawResult.num 5, 3, "sp", ⟨"e", [], []⟩⟩,
      ⟨2, Status.COMPLETED, 0, RawResult.num 2, 4, "sp", ⟨"e", [], []⟩⟩]
     ⟨1, Status.COMPLETED, 0, RawResult.num 5, 3, "sp", ⟨"e", [], []⟩⟩
     (List.mem_cons_self _ _) rfl⟩

/-- C10: when no COMPLETED job exists, `get_current_best` does not raise:
with a database it returns `(None, None)` — `(None, None, None)` when job
info is requested — and without a database it logs a warning and returns no
value at all. -/
theorem get_current_best_no_completed (cleanConfig : ℕ → ℕ) (jobs : List Job)
    (h : ∀ j ∈ jobs, j.status ≠ Status.COMPLETED) :
    get_current_best true cleanConfig jobs = some (none, none) ∧
    get_current_best_with_info true cleanConfig jobs = some (none, none, none) ∧
    get_current_best false cleanConfig jobs = none ∧
    get_current_best_with_info false cleanConfig jobs = none := by
  have hdb : ¬(true = false) := by decide
  have hfil : jobs.filter (fun j => decide (j.status = Status.COMPLETED)) = [] := by
    rw [List.filter_eq_nil_iff]
    intro j hj
    simpa using h j hj
  have hm : find_one_completed_sorted jobs = none := by
    rw [find_one_completed_sorted, hfil]
    exact List.argmin_nil _
  refine ⟨?_, ?_, rfl, rfl⟩
  · simp only [get_current_best, if_neg hdb, hm]
  · simp only [get_current_best_with_info, if_neg hdb, hm]

/-- Witness for C10: a store holding only a RUNNING job. -/
theorem get_current_best_no_completed_witness :
    (∀ j ∈ ([⟨1, Status.RUNNING, 0, RawResult.num 5, 3, "sp", ⟨"e", [], []⟩⟩] :
        List Job), j.status ≠ Status.COMPLETED) ∧
    (get_current_best true (fun c => c)
        [⟨1, Status.RUNNING, 0, RawResult.num 5, 3, "sp", ⟨"e", [], []⟩⟩] =
      some (none, none) ∧
    get_current_best_with_info true (fun c => c)
        [⟨1, Status.RUNNING, 0, RawResult.num 5, 3, "sp", ⟨"e", [], []⟩⟩] =
      some (none, none, none) ∧
    get_current_best false (fun c => c)
        [⟨1, Status.RUNNING, 0, RawResult.num 5, 3, "sp", ⟨"e", [], []⟩⟩] = none ∧
    get_current_best_with_info false (fun c => c)
        [⟨1, Status.RUNNING, 0, RawResult.num 5, 3, "sp", ⟨"e", [], []⟩⟩] = none) :=
  ⟨by decide,
   get_current_best_no_completed (fun c => c)
     [⟨1, Status.RUNNING, 0, RawResult.num 5, 3, "sp", ⟨"e", [], []⟩⟩]
     (by decide)⟩

/-- C6: `convert_result` passes numbers through unchanged
(`toScalar(5.0) == 5.0` as the general law), extracts a numeric
`optimization_target` from a dict (`toScalar({"optimization_target": 3.2})
== 3.2`), fails with `MissingObjectiveError` on a dict lacking that key,
with `NonNumericObjectiveError` on a dict whose value under that key is not
numeric, and with `UnsupportedResultShapeError` on any other shape (strings,
arrays). Purity holds by construction: the embedding is a total function of
its argument. -/
theorem convert_result_spec (x : ℚ) (entriesM entriesN : List (String × RawResult))
    (v : RawResult)
    (hmiss : lookup_field entriesM "optimization_target" = none)
    (hfound : lookup_field entriesN "optimization_target" = some v)
    (hnn : ∀ y : ℚ, v ≠ RawResult.num y) :
    convert_result (RawResult.num x) = Except.ok x ∧
    convert_result (RawResult.dict [("optimization_target", RawResult.num (3.2 : ℚ))]) =
      Except.ok (3.2 : ℚ) ∧
    convert_result (RawResult.dict entriesM) = Except.error ConvErr.MissingObjectiveError ∧
    convert_result (RawResult.dict entriesN) = Except.error ConvErr.NonNumericObjectiveError ∧
    (∀ s : String, convert_result (RawResult.str s) =
      Except.error ConvErr.UnsupportedResultShapeError) ∧
    (∀ xs : List RawResult, convert_result (RawResult.arr xs) =
      Except.error ConvErr.UnsupportedResultShapeError) := by
  refine ⟨rfl, rfl, ?_, ?_, fun _ => rfl, fun _ => rfl⟩
  · simp [convert_result, hmiss]
  · cases v with
    | num y => exact absurd rfl (hnn y)
    | str s => simp [convert_result, hfound]
    | dict d => simp [convert_result, hfound]
    | arr a => simp [convert_result, hfound]

/-- Witness for C6 at concrete inputs: `x = 5`, a dict `{"foo": 1}` missing
the objective, and a dict whose `optimization_target` is the string
`"bad"`. -/
theorem convert_result_spec_witness :
    convert_result (RawResult.num 5) = Except.ok 5 ∧
    convert_result (RawResult.dict [("optimization_target", RawResult.num (3.2 : ℚ))]) =
      Except.ok (3.2 : ℚ) ∧
    convert_result (RawResult.dict [("foo", RawResult.num 1)]) =
      Except.error ConvErr.MissingObjectiveError ∧
    convert_result (RawResult.dict [("optimization_target", RawResult.str "bad")]) =
      Except.error ConvErr.NonNumericObjectiveError ∧
    (∀ s : String, convert_result (RawResult.str s) =
      Except.error ConvErr.UnsupportedResultShapeError) ∧
    (∀ xs : List RawResult, convert_result (RawResult.arr xs) =
      Except.error ConvErr.UnsupportedResultShapeError) :=
  convert_result_spec 5 [("foo", RawResult.num 1)]
    [("optimization_target", RawResult.str "bad")] (RawResult.str "bad")
    rfl rfl (fun _ h => RawResult.noConfusion h)

end Labwatch
